import Mathlib

/-!
A verification development for the `governance` access-control and
compliance library.  The definitions below are a shallow embedding of the
Go sources: Go structs become Lean structures, Go slices become lists,
nullable decision pointers become `Option`, and the Go `map[string]string`
tag field is modelled as an association list (and, where reference
semantics of Go maps matter, as an explicit address into a tag heap).
Machine integers (`int` priorities) are modelled as `Int`; no arithmetic
here can overflow a 64-bit integer.
-/

namespace Governance

/-- Type `Effect` represents a policy decision outcome (Go: `EffectAllow`, `EffectDeny`). -/
inductive Effect where
  | Allow
  | Deny
deriving DecidableEq, Repr

/-- Go: `func (e Effect) String() string`. -/
def Effect.toString : Effect → String
  | .Allow => "Allow"
  | .Deny => "Deny"

/-- Outcome type `StepOutcome` of a single policy evaluation step (Go: `StepAllow`, `StepDeny`, `StepAbstain`). -/
inductive StepOutcome where
  | Allow
  | Deny
  | Abstain
deriving DecidableEq, Repr

/-- Go: `func (o StepOutcome) String() string` (the `Unknown` default arm is
unreachable for the three-valued type). -/
def StepOutcome.toString : StepOutcome → String
  | .Allow => "Allow"
  | .Deny => "Deny"
  | .Abstain => "Abstain"

/-- An authenticated subject. -/
structure Principal where
  ID : String
  Role : String
  Department : String
deriving DecidableEq, Repr

/-- A governed asset.  Go's `Type` field is spelled `Typ` (Lean keyword);
the `map[string]string` tag field is modelled as an association list. -/
structure Resource where
  ID : String
  Typ : String
  Classification : String
  Tags : List (String × String)
deriving DecidableEq, Repr

/-- An operation to perform. -/
structure Action where
  Verb : String
deriving DecidableEq, Repr

/-- The full context for a policy evaluation. -/
structure RequestContext where
  Principal : Principal
  Resource : Resource
  Action : Action
  Environment : String
  MFAVerified : Bool
deriving DecidableEq, Repr

/-- The outcome of a policy evaluation. -/
structure PolicyDecision where
  Effect : Effect
  PolicyName : String
  Reason : String
deriving DecidableEq, Repr

/-- Records the outcome of a single policy in an evaluation trace. -/
structure PolicyStep where
  PolicyName : String
  Outcome : StepOutcome
  Reason : String
deriving DecidableEq, Repr

/-- Records all policy evaluation steps for an access decision. -/
structure EvaluationTrace where
  Context : RequestContext
  Steps : List PolicyStep
deriving DecidableEq, Repr

/-- Pairs a decision with its full evaluation trace. -/
structure EvaluationResult where
  Decision : PolicyDecision
  Trace : EvaluationTrace
deriving DecidableEq, Repr

/-- Lists violations found for a resource. -/
structure ComplianceReport where
  ResourceID : String
  Violations : List String
deriving DecidableEq, Repr

/-- Go: `func (r ComplianceReport) Compliant() bool { return len(r.Violations) == 0 }`. -/
def ComplianceReport.Compliant (r : ComplianceReport) : Bool :=
  r.Violations.length == 0

/-- A named rule with metadata and an evaluation function; the Go
`PolicyFn` returns `nil` to abstain, modelled by `Option`. -/
structure Policy where
  Name : String
  Version : String
  Author : String
  Description : String
  Priority : Int
  Evaluate : RequestContext → Option PolicyDecision

/-- The Go comparison closure `e.policies[i].Priority > e.policies[j].Priority`
used with `sort.SliceStable`, re-expressed as the non-strict "may come first"
test a stable merge sort expects: `a` may precede `b` iff `b.Priority ≤ a.Priority`. -/
def policyLE (a b : Policy) : Bool :=
  b.Priority ≤ a.Priority

/-- Evaluates an ordered list of policies against a `RequestContext`. -/
structure PolicyEngine where
  policies : List Policy

/-- Go: `RegisterPolicy` appends then re-sorts with `sort.SliceStable`
(stable, priority descending). -/
def PolicyEngine.RegisterPolicy (e : PolicyEngine) (p : Policy) : PolicyEngine :=
  { policies := (e.policies ++ [p]).mergeSort policyLE }

/-- Go: `PolicyCount`. -/
def PolicyEngine.PolicyCount (e : PolicyEngine) : Nat :=
  e.policies.length

/-- The synthesized fail-closed decision from the tail of `PolicyEngine.Evaluate`. -/
def defaultDenyDecision : PolicyDecision :=
  { Effect := .Deny, PolicyName := "default", Reason := "No policy explicitly granted access." }

/-- The loop body of Go's `PolicyEngine.Evaluate`: walks the policy list
carrying the accumulated trace steps and the first recorded Allow. -/
def evalLoop (ctx : RequestContext) :
    List Policy → List PolicyStep → Option PolicyDecision → EvaluationResult
  | [], steps, firstAllow =>
    match firstAllow with
    | some d => { Decision := d, Trace := { Context := ctx, Steps := steps } }
    | none => { Decision := defaultDenyDecision, Trace := { Context := ctx, Steps := steps } }
  | policy :: rest, steps, firstAllow =>
    match policy.Evaluate ctx with
    | none =>
      evalLoop ctx rest
        (steps ++ [{ PolicyName := policy.Name, Outcome := .Abstain, Reason := "" }]) firstAllow
    | some decision =>
      if decision.Effect = .Deny then
        { Decision := decision,
          Trace := { Context := ctx,
                     Steps := steps ++
                       [{ PolicyName := policy.Name, Outcome := .Deny, Reason := decision.Reason }] } }
      else
        evalLoop ctx rest
          (steps ++ [{ PolicyName := policy.Name, Outcome := .Allow, Reason := decision.Reason }])
          (match firstAllow with
           | none => some decision
           | some a => some a)

/-- Go: `PolicyEngine.Evaluate` — runs all registered policies against `ctx`. -/
def PolicyEngine.Evaluate (e : PolicyEngine) (ctx : RequestContext) : EvaluationResult :=
  evalLoop ctx e.policies [] none

/-- Registering a whole list of policies one call at a time, starting from
the zero-value engine (empty policy slice). -/
def registerAll (ps : List Policy) : PolicyEngine :=
  ps.foldl PolicyEngine.RegisterPolicy ⟨[]⟩

/-- Spec wording, §4.5: the trace step sequence — one step per consulted
policy (Abstain with empty reason / Allow / Deny with the policy's reason),
truncated immediately after the first Deny since remaining policies are
never consulted. -/
def specSteps (ctx : RequestContext) : List Policy → List PolicyStep
  | [] => []
  | p :: rest =>
    match p.Evaluate ctx with
    | none => { PolicyName := p.Name, Outcome := .Abstain, Reason := "" } :: specSteps ctx rest
    | some d =>
      if d.Effect = .Deny then
        [{ PolicyName := p.Name, Outcome := .Deny, Reason := d.Reason }]
      else
        { PolicyName := p.Name, Outcome := .Allow, Reason := d.Reason } :: specSteps ctx rest

/-- Spec wording, §4.5: the decision of the first policy (in order) that
decides Deny, if any. -/
def firstDenyDecision (ctx : RequestContext) : List Policy → Option PolicyDecision
  | [] => none
  | p :: rest =>
    match p.Evaluate ctx with
    | some d => if d.Effect = .Deny then some d else firstDenyDecision ctx rest
    | none => firstDenyDecision ctx rest

/-- Spec wording, §4.5: the decision of the first policy (in order) that
decides Allow, if any (subsequent Allows do not override it). -/
def firstAllowDecision (ctx : RequestContext) : List Policy → Option PolicyDecision
  | [] => none
  | p :: rest =>
    match p.Evaluate ctx with
    | some d => if d.Effect = .Deny then firstAllowDecision ctx rest else some d
    | none => firstAllowDecision ctx rest

/-- Spec wording, §4.5 resolution: first Deny wins; else first recorded
Allow; else the synthesized default Deny. -/
def specDecision (ctx : RequestContext) (ps : List Policy) : PolicyDecision :=
  match firstDenyDecision ctx ps with
  | some d => d
  | none =>
    match firstAllowDecision ctx ps with
    | some d => d
    | none => defaultDenyDecision

/-- Spec wording, §4.5: the whole result — decision per the resolution
strategy, trace carrying the captured context and the step sequence. -/
def EvaluateSpec (e : PolicyEngine) (ctx : RequestContext) : EvaluationResult :=
  { Decision := specDecision ctx e.policies
    Trace := { Context := ctx, Steps := specSteps ctx e.policies } }

/-- Go builtin: grants unrestricted access to all principals with the admin role. -/
def AdminFullAccess : Policy :=
  { Name := "AdminFullAccess", Version := "1.0", Author := "governance-team",
    Description := "Grants unrestricted access to all principals with the admin role.",
    Priority := 0,
    Evaluate := fun ctx =>
      if ctx.Principal.Role = "admin" then
        some { Effect := .Allow, PolicyName := "AdminFullAccess",
               Reason := "Admin role has unrestricted access." }
      else none }

/-- Go builtin: denies access to restricted resources when MFA has not been verified. -/
def MFARequiredForRestricted : Policy :=
  { Name := "MFARequiredForRestricted", Version := "1.0", Author := "governance-team",
    Description := "Denies access to restricted resources when MFA has not been verified.",
    Priority := 0,
    Evaluate := fun ctx =>
      if ctx.Resource.Classification = "restricted" && !ctx.MFAVerified then
        some { Effect := .Deny, PolicyName := "MFARequiredForRestricted",
               Reason := "MFA required to access restricted resources." }
      else none }

/-- Go builtin: prevents non-admin principals from writing or deleting in production. -/
def ProductionImmutability : Policy :=
  { Name := "ProductionImmutability", Version := "1.0", Author := "governance-team",
    Description := "Prevents non-admin principals from writing or deleting in production.",
    Priority := 0,
    Evaluate := fun ctx =>
      if ctx.Environment = "production" && ctx.Principal.Role ≠ "admin" &&
          (ctx.Action.Verb = "write" || ctx.Action.Verb = "delete") then
        some { Effect := .Deny, PolicyName := "ProductionImmutability",
               Reason := "Write/delete operations require admin role in production." }
      else none }

/-- Go builtin: restricts analysts to read-only access on non-sensitive resources. -/
def AnalystReadOnly : Policy :=
  { Name := "AnalystReadOnly", Version := "1.0", Author := "governance-team",
    Description := "Restricts analysts to read-only access on non-sensitive resources.",
    Priority := 0,
    Evaluate := fun ctx =>
      if ctx.Principal.Role ≠ "analyst" then none
      else if ctx.Action.Verb ≠ "read" then
        some { Effect := .Deny, PolicyName := "AnalystReadOnly",
               Reason := "Analysts are limited to read-only access." }
      else if ctx.Resource.Classification = "restricted" ||
          ctx.Resource.Classification = "confidential" then
        some { Effect := .Deny, PolicyName := "AnalystReadOnly",
               Reason := "Analysts cannot access confidential or restricted data." }
      else
        some { Effect := .Allow, PolicyName := "AnalystReadOnly",
               Reason := "Analyst read access on non-sensitive resource allowed." } }

/-- Go builtin: grants engineers full access in dev/staging and read-only in
production; deliberately abstains on restricted resources. -/
def EngineerAccess : Policy :=
  { Name := "EngineerAccess", Version := "1.0", Author := "governance-team",
    Description := "Grants engineers full access in dev/staging and read-only in production.",
    Priority := 0,
    Evaluate := fun ctx =>
      if ctx.Principal.Role ≠ "engineer" then none
      else if ctx.Resource.Classification = "restricted" then none
      else if ctx.Environment = "dev" || ctx.Environment = "staging" then
        some { Effect := .Allow, PolicyName := "EngineerAccess",
               Reason := "Engineers have full access in non-production environments." }
      else if ctx.Environment = "production" && ctx.Action.Verb = "read" then
        some { Effect := .Allow, PolicyName := "EngineerAccess",
               Reason := "Engineers can read production resources." }
      else none }

/-- Go: `DefaultPolicyEngine` — all built-in policies registered in the
recommended order. -/
def DefaultPolicyEngine : PolicyEngine :=
  (((((PolicyEngine.mk []).RegisterPolicy AdminFullAccess).RegisterPolicy
      MFARequiredForRestricted).RegisterPolicy
      ProductionImmutability).RegisterPolicy
      AnalystReadOnly).RegisterPolicy
      EngineerAccess

/-- Go: `policyNames` — extracts the `Name` fields from a slice of policies. -/
def policyNames (policies : List Policy) : List String :=
  policies.map (·.Name)

/-- Loop body of the Go `AnyOf` combinator's evaluation closure, carrying
the first deny (sub-policy name and decision) seen so far. -/
def anyOfLoop (name : String) (ctx : RequestContext) :
    List Policy → Option (String × PolicyDecision) → Option PolicyDecision
  | [], firstDeny =>
    match firstDeny with
    | some nd =>
      some { Effect := .Deny, PolicyName := name,
             Reason := "AnyOf denied by sub-policy " ++ nd.1 ++ ": " ++ nd.2.Reason }
    | none => none
  | p :: rest, firstDeny =>
    match p.Evaluate ctx with
    | none => anyOfLoop name ctx rest firstDeny
    | some d =>
      if d.Effect = .Allow then
        some { Effect := .Allow, PolicyName := name,
               Reason := "AnyOf allowed by sub-policy " ++ p.Name ++ ": " ++ d.Reason }
      else
        anyOfLoop name ctx rest
          (match firstDeny with
           | none => some (p.Name, d)
           | some x => some x)

/-- Go: `AnyOf` — allows on the first Allow; else denies from the first
deny encountered; else abstains. -/
def AnyOf (name : String) (policies : List Policy) : Policy :=
  { Name := name, Version := "1.0", Author := "governance-team",
    Description := "AnyOf combinator over [" ++ String.intercalate ", " (policyNames policies) ++ "]",
    Priority := 0,
    Evaluate := fun ctx => anyOfLoop name ctx policies none }

/-- Loop body of the Go `NoneOf` combinator's evaluation closure. -/
def noneOfLoop (name : String) (ctx : RequestContext) : List Policy → Option PolicyDecision
  | [] => none
  | p :: rest =>
    match p.Evaluate ctx with
    | some d =>
      if d.Effect = .Allow then
        some { Effect := .Deny, PolicyName := name,
               Reason := "NoneOf blocked by sub-policy " ++ p.Name ++ ": " ++ d.Reason }
      else noneOfLoop name ctx rest
    | none => noneOfLoop name ctx rest

/-- Go: `NoneOf` — denies when any sub-policy allows (block-list semantics);
abstains otherwise. -/
def NoneOf (name : String) (policies : List Policy) : Policy :=
  { Name := name, Version := "1.0", Author := "governance-team",
    Description := "NoneOf combinator over [" ++ String.intercalate ", " (policyNames policies) ++ "]",
    Priority := 0,
    Evaluate := fun ctx => noneOfLoop name ctx policies }

/-- Spec wording, §4.3: the first sub-policy (scanned in the given order)
that allows, together with its decision. -/
def firstAllowSub (ctx : RequestContext) : List Policy → Option (String × PolicyDecision)
  | [] => none
  | p :: rest =>
    match p.Evaluate ctx with
    | some d => if d.Effect = .Allow then some (p.Name, d) else firstAllowSub ctx rest
    | none => firstAllowSub ctx rest

/-- Spec wording, §4.3: the first sub-policy (scanned in the given order)
that denies, together with its decision. -/
def firstDenySub (ctx : RequestContext) : List Policy → Option (String × PolicyDecision)
  | [] => none
  | p :: rest =>
    match p.Evaluate ctx with
    | some d => if d.Effect = .Deny then some (p.Name, d) else firstDenySub ctx rest
    | none => firstDenySub ctx rest

/-- A named compliance check applied to a `Resource`. -/
structure ComplianceRule where
  Name : String
  Version : String
  Author : String
  Description : String
  Check : Resource → Bool

/-- Groups `ComplianceRule`s under a named bundle. -/
structure RuleSet where
  Name : String
  Rules : List ComplianceRule

/-- Evaluates resources against a set of named rules. -/
structure ComplianceChecker where
  rules : List ComplianceRule

/-- Go: `AddRule` — appends one rule, name unmodified. -/
def ComplianceChecker.AddRule (c : ComplianceChecker) (rule : ComplianceRule) : ComplianceChecker :=
  ⟨c.rules ++ [rule]⟩

/-- Go: `AddRuleSet` — appends, for each rule of the bundle, a copy whose
name is `"BundleName/RuleName"`; the bundle itself is not modified. -/
def ComplianceChecker.AddRuleSet (c : ComplianceChecker) (rs : RuleSet) : ComplianceChecker :=
  ⟨c.rules ++ rs.Rules.map (fun rule =>
    { Name := rs.Name ++ "/" ++ rule.Name, Version := rule.Version, Author := rule.Author,
      Description := rule.Description, Check := rule.Check })⟩

/-- Go: `RuleCount`. -/
def ComplianceChecker.RuleCount (c : ComplianceChecker) : Nat :=
  c.rules.length

/-- Loop body of Go's `ComplianceChecker.Evaluate`: every rule is consulted,
appending `"[Name] Description"` for each failing rule. -/
def complianceLoop (resource : Resource) : List ComplianceRule → List String → List String
  | [], acc => acc
  | rule :: rest, acc =>
    if rule.Check resource then complianceLoop resource rest acc
    else complianceLoop resource rest (acc ++ ["[" ++ rule.Name ++ "] " ++ rule.Description])

/-- Go: `ComplianceChecker.Evaluate` — runs all rules against `resource`. -/
def ComplianceChecker.Evaluate (c : ComplianceChecker) (resource : Resource) : ComplianceReport :=
  { ResourceID := resource.ID, Violations := complianceLoop resource c.rules [] }

/-- Go: `SOC2RuleSet` — bundles the SOC 2 ownership and classification rules. -/
def SOC2RuleSet : RuleSet :=
  { Name := "SOC2",
    Rules := [
      { Name := "RequiresOwnerTag", Version := "1.0", Author := "governance-team",
        Description := "Resource must have an \x27owner\x27 tag.",
        Check := fun r => (r.Tags.lookup "owner").isSome },
      { Name := "NoUnclassifiedResources", Version := "1.0", Author := "governance-team",
        Description := "Every resource must have a non-empty classification.",
        Check := fun r => r.Classification ≠ "" }] }

/-- Go: `DataSecurityRuleSet` — bundles the data security protection rules. -/
def DataSecurityRuleSet : RuleSet :=
  { Name := "DataSecurity",
    Rules := [
      { Name := "SecretsNotPublic", Version := "1.0", Author := "governance-team",
        Description := "Resources of type \x27secret\x27 must not be classified as \x27public\x27.",
        Check := fun r => !(r.Typ = "secret" && r.Classification = "public") },
      { Name := "DatabasesMustBeRestricted", Version := "1.0", Author := "governance-team",
        Description := "Database resources must be classified as \x27restricted\x27 or \x27confidential\x27.",
        Check := fun r =>
          if r.Typ ≠ "database" then true
          else r.Classification = "restricted" || r.Classification = "confidential" }] }

/-- The JSON value tree produced by the serialization layer (`json.go`). -/
inductive JsonVal where
  | str : String → JsonVal
  | jbool : Bool → JsonVal
  | arr : List JsonVal → JsonVal
  | obj : List (String × JsonVal) → JsonVal

/-- Go: `Effect.MarshalJSON` — the string name, not a number. -/
def marshalEffect (e : Effect) : JsonVal :=
  .str e.toString

/-- Go: `StepOutcome.MarshalJSON` — the string name, not a number. -/
def marshalStepOutcome (o : StepOutcome) : JsonVal :=
  .str o.toString

/-- A `PolicyDecision` rendered per its struct tags
(`effect`, `policy_name`, `reason`). -/
def marshalPolicyDecision (d : PolicyDecision) : JsonVal :=
  .obj [("effect", marshalEffect d.Effect), ("policy_name", .str d.PolicyName),
        ("reason", .str d.Reason)]

/-- A `PolicyStep` rendered per its struct tags (`policy`, `outcome`, `reason`). -/
def marshalPolicyStep (s : PolicyStep) : JsonVal :=
  .obj [("policy", .str s.PolicyName), ("outcome", marshalStepOutcome s.Outcome),
        ("reason", .str s.Reason)]

/-- Go: `EvaluationResult.MarshalJSON` — the trace context flattened into
the `trace` object; a `nil` step slice is replaced by the empty slice, so
`steps` always renders as an array (in this embedding `nil` and the empty
slice are both the empty list). -/
def marshalEvaluationResult (r : EvaluationResult) : JsonVal :=
  .obj [("decision", marshalPolicyDecision r.Decision),
        ("trace", .obj [
          ("principal", .str r.Trace.Context.Principal.ID),
          ("resource", .str r.Trace.Context.Resource.ID),
          ("action", .str r.Trace.Context.Action.Verb),
          ("environment", .str r.Trace.Context.Environment),
          ("steps", .arr (r.Trace.Steps.map marshalPolicyStep))])]

/-- Go: `ComplianceReport.MarshalJSON` — `compliant` is computed at render
time by calling `r.Compliant()`; a `nil` violation slice renders as an
empty array (collapsed with the empty list here). -/
def marshalComplianceReport (r : ComplianceReport) : JsonVal :=
  .obj [("resource_id", .str r.ResourceID), ("compliant", .jbool r.Compliant),
        ("violations", .arr (r.Violations.map JsonVal.str))]

/-!
Reference-semantics model for Go map fields.  In Go, `Resource.Tags` has
type `map[string]string`: assigning a `RequestContext` (as
`PolicyEngine.Evaluate` does when it stores `Context: ctx` in the trace)
copies every scalar field but only copies the map *header*, so the copy
aliases the same underlying hash table.  To reason about host-side mutation
of the tag map after evaluation we model the map field as an address
(`Nat`) into an explicit tag heap.
-/

/-- The heap of live tag maps; an address is an index into this list. -/
abbrev TagHeap := List (List (String × String))

/-- A `Resource` under Go reference semantics: the `Tags` field is the map
reference (an address into the tag heap), as copied by struct assignment. -/
structure GoResource where
  ID : String
  Typ : String
  Classification : String
  Tags : Nat
deriving DecidableEq, Repr

/-- A `RequestContext` whose resource carries a tag-map reference. -/
structure GoRequestContext where
  Principal : Principal
  Resource : GoResource
  Action : Action
  Environment : String
  MFAVerified : Bool
deriving DecidableEq, Repr

/-- A policy over the reference-semantics context (only the fields the
engine loop touches are needed: name and evaluation function). -/
structure GoPolicy where
  Name : String
  Evaluate : GoRequestContext → Option PolicyDecision

/-- Evaluation trace over the reference-semantics context. -/
structure GoEvaluationTrace where
  Context : GoRequestContext
  Steps : List PolicyStep

/-- Evaluation result over the reference-semantics context. -/
structure GoEvaluationResult where
  Decision : PolicyDecision
  Trace : GoEvaluationTrace

/-- Engine over the reference-semantics context. -/
structure GoPolicyEngine where
  policies : List GoPolicy

/-- The same loop as `evalLoop`, over the reference-semantics context. -/
def evalLoopH (ctx : GoRequestContext) :
    List GoPolicy → List PolicyStep → Option PolicyDecision → GoEvaluationResult
  | [], steps, firstAllow =>
    match firstAllow with
    | some d => { Decision := d, Trace := { Context := ctx, Steps := steps } }
    | none => { Decision := defaultDenyDecision, Trace := { Context := ctx, Steps := steps } }
  | policy :: rest, steps, firstAllow =>
    match policy.Evaluate ctx with
    | none =>
      evalLoopH ctx rest
        (steps ++ [{ PolicyName := policy.Name, Outcome := .Abstain, Reason := "" }]) firstAllow
    | some decision =>
      if decision.Effect = .Deny then
        { Decision := decision,
          Trace := { Context := ctx,
                     Steps := steps ++
                       [{ PolicyName := policy.Name, Outcome := .Deny, Reason := decision.Reason }] } }
      else
        evalLoopH ctx rest
          (steps ++ [{ PolicyName := policy.Name, Outcome := .Allow, Reason := decision.Reason }])
          (match firstAllow with
           | none => some decision
           | some a => some a)

/-- The analogue of `PolicyEngine.Evaluate` over the reference-semantics context; the trace
captures `ctx` by struct assignment (scalar fields copied, map reference
shared). -/
def GoPolicyEngine.Evaluate (e : GoPolicyEngine) (ctx : GoRequestContext) : GoEvaluationResult :=
  evalLoopH ctx e.policies [] none

/-- Dereference a tag-map address (an address outside the heap reads as the
empty map; well-formed programs never do this). -/
def readTags (h : TagHeap) (a : Nat) : List (String × String) :=
  h.getD a []

/-- Host-side mutation `m[k] = v` on the tag map at address `a`, for a key
`k` not already present: the heap cell gains the new entry in place. -/
def setTag (h : TagHeap) (a : Nat) (k v : String) : TagHeap :=
  h.set a (readTags h a ++ [(k, v)])

/-!  Concrete fixtures used by the closed statements below.  -/

/-- A neutral request context (guest reading an internal storage bucket in dev). -/
def blankCtx : RequestContext :=
  { Principal := { ID := "u1", Role := "guest", Department := "ops" }
    Resource := { ID := "r1", Typ := "storage", Classification := "internal", Tags := [] }
    Action := { Verb := "read" }
    Environment := "dev"
    MFAVerified := false }

/-- The literal scenario of claim C3: an engineer reading a restricted
resource in staging without MFA. -/
def engineerStagingCtx : RequestContext :=
  { Principal := { ID := "eng-1", Role := "engineer", Department := "platform" }
    Resource := { ID := "db-1", Typ := "database", Classification := "restricted", Tags := [] }
    Action := { Verb := "read" }
    Environment := "staging"
    MFAVerified := false }

/-- A priority `-1` policy that always allows (registered first in the C2 scenario). -/
def negPriorityPolicy : Policy :=
  { Name := "NegativePriority", Version := "1.0", Author := "t", Description := "",
    Priority := -1,
    Evaluate := fun _ =>
      some { Effect := .Allow, PolicyName := "NegativePriority", Reason := "neg allow" } }

/-- A priority `0` policy that always allows (registered second in the C2 scenario). -/
def zeroPriorityPolicy : Policy :=
  { Name := "ZeroPriority", Version := "1.0", Author := "t", Description := "",
    Priority := 0,
    Evaluate := fun _ =>
      some { Effect := .Allow, PolicyName := "ZeroPriority", Reason := "zero allow" } }

/-- A policy that always denies, for exercising the deny-step invariant. -/
def alwaysDenyPolicy : Policy :=
  { Name := "AlwaysDeny", Version := "1.0", Author := "t", Description := "",
    Priority := 0,
    Evaluate := fun _ =>
      some { Effect := .Deny, PolicyName := "AlwaysDeny", Reason := "blocked" } }

/-- A policy that always allows, for exercising the deny-step invariant. -/
def alwaysAllowPolicy : Policy :=
  { Name := "AlwaysAllow", Version := "1.0", Author := "t", Description := "",
    Priority := 0,
    Evaluate := fun _ =>
      some { Effect := .Allow, PolicyName := "AlwaysAllow", Reason := "granted" } }

/-- A reference-semantics context whose resource's tag map lives at heap
address 0. -/
def goCtx : GoRequestContext :=
  { Principal := { ID := "u1", Role := "guest", Department := "ops" }
    Resource := { ID := "r1", Typ := "storage", Classification := "internal", Tags := 0 }
    Action := { Verb := "read" }
    Environment := "dev"
    MFAVerified := false }

/-!  ## Theorems  -/

/-- Characterization of the evaluation loop: the accumulated steps are a
prefix of the final trace, the decision is the first Deny if one occurs,
otherwise the recorded (or first upcoming) Allow, otherwise the default. -/
theorem evalLoop_eq (ctx : RequestContext) (ps : List Policy) :
    ∀ (acc : List PolicyStep) (fa : Option PolicyDecision),
    evalLoop ctx ps acc fa =
      { Decision :=
          match firstDenyDecision ctx ps with
          | some d => d
          | none =>
            match fa with
            | some a => a
            | none =>
              match firstAllowDecision ctx ps with
              | some d => d
              | none => defaultDenyDecision
        Trace := { Context := ctx, Steps := acc ++ specSteps ctx ps } } := by
  induction ps with
  | nil =>
    intro acc fa
    cases fa <;> simp [evalLoop, firstDenyDecision, firstAllowDecision, specSteps]
  | cons p rest ih =>
    intro acc fa
    cases h : p.Evaluate ctx with
    | none =>
      simp only [evalLoop, h, firstDenyDecision, firstAllowDecision, specSteps, ih]
      simp
    | some d =>
      cases hd : d.Effect with
      | Deny =>
        simp [evalLoop, h, hd, firstDenyDecision, firstAllowDecision, specSteps]
      | Allow =>
        cases fa with
        | none =>
          simp only [evalLoop, h, hd, firstDenyDecision, firstAllowDecision, specSteps, ih]
          simp
        | some a =>
          simp only [evalLoop, h, hd, firstDenyDecision, firstAllowDecision, specSteps, ih]
          simp

/-- C1: `Evaluate` scans the sorted policy list appending an Abstain step
(empty reason) on abstention, short-circuiting with the decision and the
trace so far on the first Deny, recording the first Allow and continuing
on Allow; after a deny-free scan it returns the first recorded Allow, or
else the default Deny (`"default"` / "No policy explicitly granted
access."); an engine with no policies returns this default with an empty
step sequence. -/
theorem c1_evaluate_matches_spec (e : PolicyEngine) (ctx : RequestContext) :
    e.Evaluate ctx = EvaluateSpec e ctx ∧
    PolicyEngine.Evaluate ⟨[]⟩ ctx =
      { Decision := defaultDenyDecision, Trace := { Context := ctx, Steps := [] } } := by
  constructor
  · rw [PolicyEngine.Evaluate, evalLoop_eq]
    rfl
  · rw [PolicyEngine.Evaluate, evalLoop_eq]
    rfl

/-- Generic list fact: consing onto a nonempty list does not change `getLast?`. -/
theorem getLast?_cons_of_ne_nil {α : Type} (a : α) {l : List α} (h : l ≠ []) :
    (a :: l).getLast? = l.getLast? := by
  cases l with
  | nil => exact absurd rfl h
  | cons b t => simp

/-- The spec-shaped step sequence contains at most one Deny step. -/
theorem specSteps_count_deny (ctx : RequestContext) :
    ∀ ps : List Policy, (specSteps ctx ps).countP (fun s => s.Outcome == StepOutcome.Deny) ≤ 1 := by
  intro ps
  induction ps with
  | nil => simp [specSteps]
  | cons p rest ih =>
    cases h : p.Evaluate ctx with
    | none => simpa [specSteps, h, List.countP_cons] using ih
    | some d =>
      cases hd : d.Effect with
      | Deny => simp [specSteps, h, hd, List.countP_cons]
      | Allow => simpa [specSteps, h, hd, List.countP_cons] using ih

/-- If a Deny step occurs in the spec-shaped step sequence, it is the last
step, it belongs to a policy of the list whose decision it reports, and
that decision is the first Deny of the scan. -/
theorem specSteps_deny_last (ctx : RequestContext) :
    ∀ (ps : List Policy) (s : PolicyStep), s ∈ specSteps ctx ps → s.Outcome = StepOutcome.Deny →
    (specSteps ctx ps).getLast? = some s ∧
    ∃ p, p ∈ ps ∧ p.Name = s.PolicyName ∧
      ∃ d, p.Evaluate ctx = some d ∧ d.Effect = Effect.Deny ∧ d.Reason = s.Reason ∧
        firstDenyDecision ctx ps = some d := by
  intro ps
  induction ps with
  | nil => intro s hs; simp [specSteps] at hs
  | cons p rest ih =>
    intro s hs hdeny
    cases h : p.Evaluate ctx with
    | none =>
      simp only [specSteps, h] at hs
      rcases List.mem_cons.mp hs with heq | hmem
      · rw [heq] at hdeny; simp at hdeny
      · obtain ⟨hlast, q, hq, hname, d, hev, heff, hreason, hfd⟩ := ih s hmem hdeny
        refine ⟨?_, q, List.mem_cons_of_mem p hq, hname, d, hev, heff, hreason, ?_⟩
        · simp only [specSteps, h]
          rw [getLast?_cons_of_ne_nil _ (List.ne_nil_of_mem hmem)]
          exact hlast
        · simp only [firstDenyDecision, h]
          exact hfd
    | some d =>
      cases hd : d.Effect with
      | Deny =>
        simp only [specSteps, h, hd, reduceIte, List.mem_singleton] at hs
        subst hs
        refine ⟨by simp [specSteps, h, hd], p, List.mem_cons_self p rest, rfl, d, h, hd, rfl, ?_⟩
        simp [firstDenyDecision, h, hd]
      | Allow =>
        have hne : ¬(d.Effect = Effect.Deny) := by rw [hd]; simp
        simp only [specSteps, h, if_neg hne] at hs
        rcases List.mem_cons.mp hs with heq | hmem
        · rw [heq] at hdeny; simp at hdeny
        · obtain ⟨hlast, q, hq, hname, dd, hev, heff, hreason, hfd⟩ := ih s hmem hdeny
          refine ⟨?_, q, List.mem_cons_of_mem p hq, hname, dd, hev, heff, hreason, ?_⟩
          · simp only [specSteps, h, if_neg hne]
            rw [getLast?_cons_of_ne_nil _ (List.ne_nil_of_mem hmem)]
            exact hlast
          · simp only [firstDenyDecision, h, if_neg hne]
            exact hfd

/-- C10: the trace returned by `Evaluate` contains at most one Deny step;
when one exists it is the last step of the trace, and the returned decision
is exactly the denying policy's decision, with effect Deny. -/
theorem c10_deny_step_unique_last (e : PolicyEngine) (ctx : RequestContext) :
    ((e.Evaluate ctx).Trace.Steps.countP (fun s => s.Outcome == StepOutcome.Deny) ≤ 1) ∧
    ∀ s ∈ (e.Evaluate ctx).Trace.Steps, s.Outcome = StepOutcome.Deny →
      (e.Evaluate ctx).Trace.Steps.getLast? = some s ∧
      (e.Evaluate ctx).Decision.Effect = Effect.Deny ∧
      ∃ p, p ∈ e.policies ∧ p.Name = s.PolicyName ∧
        p.Evaluate ctx = some (e.Evaluate ctx).Decision ∧
        (e.Evaluate ctx).Decision.Reason = s.Reason := by
  have hsteps : (e.Evaluate ctx).Trace.Steps = specSteps ctx e.policies := by
    rw [PolicyEngine.Evaluate, evalLoop_eq]
    simp
  have hdec : (e.Evaluate ctx).Decision = specDecision ctx e.policies := by
    rw [PolicyEngine.Evaluate, evalLoop_eq]
    rfl
  constructor
  · rw [hsteps]
    exact specSteps_count_deny ctx e.policies
  · intro s hs hdeny
    rw [hsteps] at hs
    obtain ⟨hlast, q, hq, hname, d, hev, heff, hreason, hfd⟩ :=
      specSteps_deny_last ctx e.policies s hs hdeny
    have hdecd : (e.Evaluate ctx).Decision = d := by
      rw [hdec, specDecision, hfd]
    refine ⟨by rw [hsteps]; exact hlast, by rw [hdecd]; exact heff,
      q, hq, hname, by rw [hdecd]; exact hev, by rw [hdecd]; exact hreason⟩

/-- Closed witness for C10: a two-policy engine (an Allow then a Deny)
whose trace ends in the Deny step of `AlwaysDeny`. -/
theorem c10_witness :
    ((PolicyEngine.mk [alwaysAllowPolicy, alwaysDenyPolicy]).Evaluate blankCtx).Trace.Steps.getLast? =
      some { PolicyName := "AlwaysDeny", Outcome := .Deny, Reason := "blocked" } ∧
    ((PolicyEngine.mk [alwaysAllowPolicy, alwaysDenyPolicy]).Evaluate blankCtx).Decision.Effect =
      Effect.Deny ∧
    ∃ p, p ∈ [alwaysAllowPolicy, alwaysDenyPolicy] ∧ p.Name = "AlwaysDeny" ∧
      p.Evaluate blankCtx =
        some ((PolicyEngine.mk [alwaysAllowPolicy, alwaysDenyPolicy]).Evaluate blankCtx).Decision ∧
      ((PolicyEngine.mk [alwaysAllowPolicy, alwaysDenyPolicy]).Evaluate blankCtx).Decision.Reason =
        "blocked" :=
  (c10_deny_step_unique_last ⟨[alwaysAllowPolicy, alwaysDenyPolicy]⟩ blankCtx).2
    { PolicyName := "AlwaysDeny", Outcome := .Deny, Reason := "blocked" }
    (by decide)
    rfl

/-- The comparison `policyLE` (priority descending) is transitive. -/
theorem policyLE_trans : ∀ a b c : Policy, policyLE a b → policyLE b c → policyLE a c := by
  intro a b c hab hbc
  simp only [policyLE, decide_eq_true_eq] at hab hbc ⊢
  omega

/-- The comparison `policyLE` (priority descending) is total. -/
theorem policyLE_total : ∀ a b : Policy, policyLE a b || policyLE b a := by
  intro a b
  simp only [policyLE, Bool.or_eq_true, decide_eq_true_eq]
  omega

/-- Generic list fact: `mergeSort` is stable, so a `mergeSort` of two
elements keeps their order exactly when the comparison accepts it. -/
theorem mergeSort_pair {α : Type} (le : α → α → Bool) (a b : α) :
    [a, b].mergeSort le = if le a b then [a, b] else [b, a] := by
  rw [List.mergeSort]
  simp [List.splitInTwo, List.splitAt_eq, List.merge]

/-- Generic stability consequence of `mergeSort`: filtering by a predicate
whose satisfying elements are pairwise `le`-equivalent commutes with
sorting, i.e. those elements keep their original relative order. -/
theorem filter_mergeSort_eq {α : Type} (le : α → α → Bool) (q : α → Bool)
    (trans : ∀ a b c : α, le a b → le b c → le a c)
    (total : ∀ a b : α, le a b || le b a)
    (hq : ∀ a b : α, q a → q b → le a b)
    (l : List α) :
    (l.mergeSort le).filter q = l.filter q := by
  have hpw : (l.filter q).Pairwise (fun a b => le a b = true) := by
    apply List.pairwise_of_forall_mem_list
    intro a ha b hb
    exact hq a b (List.of_mem_filter ha) (List.of_mem_filter hb)
  have h1 : List.Sublist (l.filter q) (l.mergeSort le) :=
    List.sublist_mergeSort trans total hpw (List.filter_sublist l)
  have h2 := h1.filter q
  rw [List.filter_filter] at h2
  have hqq : (fun a => q a && q a) = q := funext fun a => Bool.and_self (q a)
  rw [hqq] at h2
  have h3 : ((l.mergeSort le).filter q).length = (l.filter q).length :=
    ((List.mergeSort_perm l le).filter q).length_eq
  exact (h2.eq_of_length h3.symm).symm

/-- Registering one more policy is a fold step. -/
theorem registerAll_append_singleton (ps : List Policy) (p : Policy) :
    registerAll (ps ++ [p]) = (registerAll ps).RegisterPolicy p := by
  simp [registerAll, List.foldl_append]

/-- After any sequence of registrations the policy list is sorted by
descending priority. -/
theorem registerAll_sorted (ps : List Policy) :
    (registerAll ps).policies.Pairwise (fun a b => b.Priority ≤ a.Priority) := by
  induction ps using List.reverseRecOn with
  | nil => simp [registerAll]
  | append_singleton l p ih =>
    rw [registerAll_append_singleton]
    simp only [PolicyEngine.RegisterPolicy]
    have h := List.sorted_mergeSort policyLE_trans policyLE_total
      ((registerAll l).policies ++ [p])
    refine h.imp ?_
    intro a b hab
    simpa [policyLE] using hab

/-- After any sequence of registrations, the policies of any fixed priority
appear in their original registration order (stability at every call). -/
theorem registerAll_stable (ps : List Policy) (k : Int) :
    (registerAll ps).policies.filter (fun p => p.Priority == k) =
      ps.filter (fun p => p.Priority == k) := by
  induction ps using List.reverseRecOn with
  | nil => simp [registerAll]
  | append_singleton l p ih =>
    rw [registerAll_append_singleton]
    simp only [PolicyEngine.RegisterPolicy]
    rw [filter_mergeSort_eq policyLE (fun q => q.Priority == k) policyLE_trans policyLE_total ?_]
    · rw [List.filter_append, ih, ← List.filter_append]
    · intro a b ha hb
      have ha' : a.Priority = k := by simpa using ha
      have hb' : b.Priority = k := by simpa using hb
      simp [policyLE, ha', hb']

/-- The two-policy C2 scenario: priority `-1` registered before priority `0`
ends up after it. -/
theorem registerTwo_policies :
    (registerAll [negPriorityPolicy, zeroPriorityPolicy]).policies =
      [zeroPriorityPolicy, negPriorityPolicy] := by
  simp only [registerAll, List.foldl_cons, List.foldl_nil, PolicyEngine.RegisterPolicy,
    List.nil_append]
  rw [List.mergeSort_singleton, List.singleton_append, mergeSort_pair]
  norm_num [policyLE, negPriorityPolicy, zeroPriorityPolicy]

/-- C2: after any sequence of `RegisterPolicy` calls the engine's policy
list is sorted by descending priority with equal-priority policies in
registration order (the sort is stable, so the invariant holds after every
call); consequently a priority `-1` policy registered before a priority `0`
policy is consulted after it, and the priority `0` policy's Allow is the
final decision. -/
theorem c2_priority_invariant :
    (∀ ps : List Policy,
      (registerAll ps).policies.Pairwise (fun a b => b.Priority ≤ a.Priority) ∧
      ∀ k : Int, (registerAll ps).policies.filter (fun p => p.Priority == k) =
        ps.filter (fun p => p.Priority == k)) ∧
    (registerAll [negPriorityPolicy, zeroPriorityPolicy]).policies.map (fun p => p.Name) =
      ["ZeroPriority", "NegativePriority"] ∧
    ((registerAll [negPriorityPolicy, zeroPriorityPolicy]).Evaluate blankCtx).Trace.Steps.map
      (fun s => s.PolicyName) = ["ZeroPriority", "NegativePriority"] ∧
    ((registerAll [negPriorityPolicy, zeroPriorityPolicy]).Evaluate blankCtx).Decision =
      { Effect := .Allow, PolicyName := "ZeroPriority", Reason := "zero allow" } := by
  refine ⟨fun ps => ⟨registerAll_sorted ps, registerAll_stable ps⟩, ?_, ?_, ?_⟩
  · rw [registerTwo_policies]
    rfl
  · rw [PolicyEngine.Evaluate, registerTwo_policies]
    rfl
  · rw [PolicyEngine.Evaluate, registerTwo_policies]
    rfl

/-- Registering policies that all carry priority 0 keeps registration order. -/
theorem registerAll_of_zero (ps : List Policy) (h : ∀ p ∈ ps, p.Priority = 0) :
    (registerAll ps).policies = ps := by
  induction ps using List.reverseRecOn with
  | nil => rfl
  | append_singleton l p ih =>
    rw [registerAll_append_singleton]
    simp only [PolicyEngine.RegisterPolicy]
    rw [ih (fun q hq => h q (List.mem_append_left _ hq))]
    rw [List.mergeSort_of_sorted ?_]
    apply List.pairwise_of_forall_mem_list
    intro a ha b hb
    have ha' := h a ha
    have hb' := h b hb
    simp [policyLE, ha', hb']

/-- The default engine holds the five built-in policies in registration
order (all at priority 0). -/
theorem defaultEngine_policies :
    DefaultPolicyEngine.policies =
      [AdminFullAccess, MFARequiredForRestricted, ProductionImmutability, AnalystReadOnly,
       EngineerAccess] := by
  have hreg : DefaultPolicyEngine = registerAll
      [AdminFullAccess, MFARequiredForRestricted, ProductionImmutability, AnalystReadOnly,
       EngineerAccess] := rfl
  rw [hreg, registerAll_of_zero]
  intro p hp
  fin_cases hp <;> rfl

/-- C3: on the default engine, an engineer reading a restricted resource in
staging without MFA is denied by `MFARequiredForRestricted` (not by
`EngineerAccess`, which abstains on restricted resources). -/
theorem c3_mfa_gate_beats_engineer :
    (DefaultPolicyEngine.Evaluate engineerStagingCtx).Decision.Effect = Effect.Deny ∧
    (DefaultPolicyEngine.Evaluate engineerStagingCtx).Decision.PolicyName =
      "MFARequiredForRestricted" := by
  rw [PolicyEngine.Evaluate, defaultEngine_policies]
  constructor <;> rfl

/-- Characterization of the `AnyOf` loop: the first Allow wins; otherwise
the carried first deny, otherwise the first deny of the remaining scan;
otherwise abstain. -/
theorem anyOfLoop_eq (name : String) (ctx : RequestContext) :
    ∀ (ps : List Policy) (fd : Option (String × PolicyDecision)),
    anyOfLoop name ctx ps fd =
      match firstAllowSub ctx ps with
      | some nd =>
        some { Effect := .Allow, PolicyName := name,
               Reason := "AnyOf allowed by sub-policy " ++ nd.1 ++ ": " ++ nd.2.Reason }
      | none =>
        match fd with
        | some nd =>
          some { Effect := .Deny, PolicyName := name,
                 Reason := "AnyOf denied by sub-policy " ++ nd.1 ++ ": " ++ nd.2.Reason }
        | none =>
          match firstDenySub ctx ps with
          | some nd =>
            some { Effect := .Deny, PolicyName := name,
                   Reason := "AnyOf denied by sub-policy " ++ nd.1 ++ ": " ++ nd.2.Reason }
          | none => none := by
  intro ps
  induction ps with
  | nil => intro fd; cases fd <;> rfl
  | cons p rest ih =>
    intro fd
    cases h : p.Evaluate ctx with
    | none =>
      simp only [anyOfLoop, h, firstAllowSub, firstDenySub]
      exact ih fd
    | some d =>
      cases hd : d.Effect with
      | Allow =>
        simp only [anyOfLoop, h, firstAllowSub, if_pos hd]
      | Deny =>
        have hne : ¬(d.Effect = Effect.Allow) := by rw [hd]; simp
        simp only [anyOfLoop, h, if_neg hne, firstAllowSub, firstDenySub, if_pos hd]
        cases fd with
        | none => rw [ih (some (p.Name, d))]
        | some x => rw [ih (some x)]

/-- C4: `AnyOf` allows on the first sub-policy that allows (with the
documented reason format); failing that it denies from the first deny
encountered during the full scan (with the documented reason format); if
every sub-policy abstains it abstains. -/
theorem c4_anyOf_first_allow_else_first_deny (name : String) (ps : List Policy)
    (ctx : RequestContext) :
    (AnyOf name ps).Evaluate ctx =
      match firstAllowSub ctx ps with
      | some nd =>
        some { Effect := .Allow, PolicyName := name,
               Reason := "AnyOf allowed by sub-policy " ++ nd.1 ++ ": " ++ nd.2.Reason }
      | none =>
        match firstDenySub ctx ps with
        | some nd =>
          some { Effect := .Deny, PolicyName := name,
                 Reason := "AnyOf denied by sub-policy " ++ nd.1 ++ ": " ++ nd.2.Reason }
        | none => none := by
  show anyOfLoop name ctx ps none = _
  rw [anyOfLoop_eq]

/-- C5: `NoneOf` denies exactly when some sub-policy allows, from the first
such sub-policy (with the documented reason format); in every other case —
all abstain, all deny, or any deny/abstain mixture — it abstains, so
sub-policy denies are never propagated. -/
theorem c5_noneOf_blocks_first_allow (name : String) (ps : List Policy)
    (ctx : RequestContext) :
    (NoneOf name ps).Evaluate ctx =
      match firstAllowSub ctx ps with
      | some nd =>
        some { Effect := .Deny, PolicyName := name,
               Reason := "NoneOf blocked by sub-policy " ++ nd.1 ++ ": " ++ nd.2.Reason }
      | none => none := by
  show noneOfLoop name ctx ps = _
  induction ps with
  | nil => rfl
  | cons p rest ih =>
    cases h : p.Evaluate ctx with
    | none =>
      simp only [noneOfLoop, h, firstAllowSub]
      exact ih
    | some d =>
      cases hd : d.Effect with
      | Allow =>
        simp only [noneOfLoop, h, firstAllowSub, if_pos hd]
      | Deny =>
        have hne : ¬(d.Effect = Effect.Allow) := by rw [hd]; simp
        simp only [noneOfLoop, h, if_neg hne, firstAllowSub]
        exact ih

/-- Characterization of the compliance loop: it never short-circuits; the
accumulated violations are extended by one formatted entry per failing
rule, in rule order. -/
theorem complianceLoop_eq (resource : Resource) :
    ∀ (rules : List ComplianceRule) (acc : List String),
    complianceLoop resource rules acc =
      acc ++ rules.filterMap (fun rule =>
        if rule.Check resource then none
        else some ("[" ++ rule.Name ++ "] " ++ rule.Description)) := by
  intro rules
  induction rules with
  | nil => intro acc; simp [complianceLoop]
  | cons r rest ih =>
    intro acc
    by_cases h : r.Check resource
    · simp [complianceLoop, h, ih]
    · simp [complianceLoop, h, ih]

/-- C6: `ComplianceChecker.Evaluate` consults every registered rule in
registration order without short-circuiting, appending
`"[Name] Description"` per failing rule; the report carries the input
resource's identifier, and `Compliant` is true exactly when the violation
sequence is empty. -/
theorem c6_compliance_evaluate (c : ComplianceChecker) (resource : Resource) :
    (c.Evaluate resource).ResourceID = resource.ID ∧
    (c.Evaluate resource).Violations = c.rules.filterMap (fun rule =>
      if rule.Check resource then none
      else some ("[" ++ rule.Name ++ "] " ++ rule.Description)) ∧
    ((c.Evaluate resource).Compliant = true ↔ (c.Evaluate resource).Violations = []) := by
  refine ⟨rfl, ?_, ?_⟩
  · show complianceLoop resource c.rules [] = _
    rw [complianceLoop_eq]
    simp
  · simp [ComplianceReport.Compliant, List.length_eq_zero]

/-- C7: `AddRuleSet` appends, for each rule of the bundle, a copy changed
only in its name (prefixed `"SetName/RuleName"`; version, author,
description and check unchanged), and bundles themselves stay unprefixed:
`SOC2RuleSet`'s own rule names remain the bare names while the checker
gains the prefixed copies. -/
theorem c7_addRuleSet_copies (c : ComplianceChecker) (rs : RuleSet) :
    ((c.AddRuleSet rs).rules = c.rules ++ rs.Rules.map (fun rule =>
      { rule with Name := rs.Name ++ "/" ++ rule.Name })) ∧
    SOC2RuleSet.Rules.map (fun r => r.Name) = ["RequiresOwnerTag", "NoUnclassifiedResources"] ∧
    ((ComplianceChecker.mk []).AddRuleSet SOC2RuleSet).rules.map (fun r => r.Name) =
      ["SOC2/RequiresOwnerTag", "SOC2/NoUnclassifiedResources"] :=
  ⟨rfl, rfl, rfl⟩

/-- C8: the serialized `EvaluationResult` hoists the captured context's
four scalar fields directly into the `trace` object beside `steps` (no
`context` key; an empty step sequence is an empty array), and the
serialized `ComplianceReport` carries `resource_id`, a `compliant` boolean
computed at render time as emptiness of the violation sequence, and
`violations` as an array (empty when empty). -/
theorem c8_json_shapes (r : EvaluationResult) (rep : ComplianceReport) :
    marshalEvaluationResult r = JsonVal.obj [
      ("decision", marshalPolicyDecision r.Decision),
      ("trace", JsonVal.obj [
        ("principal", JsonVal.str r.Trace.Context.Principal.ID),
        ("resource", JsonVal.str r.Trace.Context.Resource.ID),
        ("action", JsonVal.str r.Trace.Context.Action.Verb),
        ("environment", JsonVal.str r.Trace.Context.Environment),
        ("steps", JsonVal.arr (r.Trace.Steps.map marshalPolicyStep))])] ∧
    marshalComplianceReport rep = JsonVal.obj [
      ("resource_id", JsonVal.str rep.ResourceID),
      ("compliant", JsonVal.jbool rep.Violations.isEmpty),
      ("violations", JsonVal.arr (rep.Violations.map JsonVal.str))] := by
  refine ⟨rfl, ?_⟩
  have h : rep.Compliant = rep.Violations.isEmpty := by
    cases hv : rep.Violations <;> simp [ComplianceReport.Compliant, hv]
  simp [marshalComplianceReport, h]

/-- The reference-semantics evaluation loop stores the context value it was
given into the trace, untouched. -/
theorem evalLoopH_context (ctx : GoRequestContext) :
    ∀ (ps : List GoPolicy) (acc : List PolicyStep) (fa : Option PolicyDecision),
    (evalLoopH ctx ps acc fa).Trace.Context = ctx := by
  intro ps
  induction ps with
  | nil => intro acc fa; cases fa <;> rfl
  | cons p rest ih =>
    intro acc fa
    cases h : p.Evaluate ctx with
    | none =>
      simp only [evalLoopH, h]
      exact ih _ _
    | some d =>
      by_cases hd : d.Effect = Effect.Deny
      · simp [evalLoopH, h, hd]
      · simp only [evalLoopH, h, if_neg hd]
        exact ih _ _

/-- Mutating a live tag map in the heap is observed through every
reference to its address. -/
theorem readTags_setTag (h : TagHeap) (a : Nat) (k v : String) (ha : a < h.length) :
    readTags (setTag h a k v) a = readTags h a ++ [(k, v)] := by
  simp [readTags, setTag, List.getElem?_set_self ha]

/-- C9 fails on the code: the trace's captured context shares the caller's
tag map (Go copies only the map header), so a host-side tag insertion
after evaluation changes what the already-returned trace's captured
context observes.  Concretely: with the tag map at address 0 empty, after
`setTag` the capture reads `[("owner", "alice")]`, no longer `[]`. -/
theorem c9_tag_mutation_visible_counterexample :
    readTags (setTag ([[]] : TagHeap) 0 "owner" "alice")
        (((GoPolicyEngine.mk []).Evaluate goCtx).Trace.Context.Resource.Tags) ≠
      readTags ([[]] : TagHeap)
        (((GoPolicyEngine.mk []).Evaluate goCtx).Trace.Context.Resource.Tags) := by
  decide

/-- C9 amended: the captured context is a struct copy of the input value —
reassigning the caller's own variable cannot alter it — but its resource's
tag mapping is shared by reference, so a host-side mutation of the
original tag map after evaluation IS visible through the captured
context. -/
theorem c9_amended_capture_aliasing (e : GoPolicyEngine) (ctx : GoRequestContext)
    (h : TagHeap) (k v : String) (ha : ctx.Resource.Tags < h.length) :
    (e.Evaluate ctx).Trace.Context = ctx ∧
    readTags (setTag h ctx.Resource.Tags k v) ((e.Evaluate ctx).Trace.Context.Resource.Tags) =
      readTags h ctx.Resource.Tags ++ [(k, v)] := by
  have hc : (e.Evaluate ctx).Trace.Context = ctx := evalLoopH_context ctx e.policies [] none
  refine ⟨hc, ?_⟩
  rw [hc]
  exact readTags_setTag h ctx.Resource.Tags k v ha

/-- Closed witness for the amended C9, at the concrete heap `[[]]`. -/
theorem c9_amended_witness :
    ((GoPolicyEngine.mk []).Evaluate goCtx).Trace.Context = goCtx ∧
    readTags (setTag ([[]] : TagHeap) 0 "owner" "alice")
        (((GoPolicyEngine.mk []).Evaluate goCtx).Trace.Context.Resource.Tags) =
      readTags ([[]] : TagHeap) 0 ++ [("owner", "alice")] :=
  c9_amended_capture_aliasing ⟨[]⟩ goCtx [[]] "owner" "alice" (by decide)

end Governance
